import Mathlib

/-!
# Verification of the model-selection and recognition layer

Shallow embedding of `my_model_selectors.py` and `my_recognizer.py`.

The external trainer/scorer (`GaussianHMM.fit` / `.score`, an opaque
numerical collaborator per the spec) is modelled by oracle fields on each
selector's input structure:
* `fit n : Bool` — whether `base_model(n)` succeeds (the source's
  `base_model` catches every exception and returns `None` on failure, so it
  never raises);
* score oracles returning `Option ℚ` — `none` models a raised exception
  (`ScoreFailure`, or the `AttributeError` raised by calling `.score` on
  `None`), `some v` a returned log-likelihood.  Log-likelihood floats are
  modelled as rationals; `np.log` is an oracle field `log : Nat → ℚ`.

`float('inf')` / `float('-inf')` sentinels for the running best score are
modelled as `Option ℚ` with `none` as the initial sentinel (any rational
compares as better than the sentinel, exactly as any float compares against
±inf).  A returned model is identified by its number of states `n`, since
each loop iteration fits exactly one model per candidate complexity.
-/

/-- `range(min_n_components, max_n_components + 1)`: the candidate
complexities an inclusive interval `[minN, maxN]`, ascending. -/
def candidates (minN maxN : Nat) : List Nat :=
  List.range' minN (maxN + 1 - minN)

/-- One iteration of the shared best-tracking loop of `SelectorBIC.select`
and `SelectorDIC.select`: if the candidate's criterion score is available
(`some v`) and beats the running best under `cmp` (strict `<` for BIC,
strict `>` for DIC; the `none` initial state is the `float('±inf')`
sentinel, beaten by everything), both `best_score` and `best_model` are
replaced; a candidate whose computation raised (`none`) is skipped by the
bare `except: pass`. -/
def bestStep (score : Nat → Option ℚ) (cmp : ℚ → ℚ → Bool)
    (st : Option ℚ × Option Nat) (n : Nat) : Option ℚ × Option Nat :=
  match score n with
  | none => st
  | some v =>
    match st.1 with
    | none => (some v, some n)
    | some b => if cmp v b then (some v, some n) else st

/-- The full best-tracking loop over a candidate list, from the initial
state `best_score = ±inf`, `best_model = None`. -/
def runBest (score : Nat → Option ℚ) (cmp : ℚ → ℚ → Bool)
    (l : List Nat) : Option ℚ × Option Nat :=
  l.foldl (bestStep score cmp) (none, none)

/-! ## SelectorConstant -/

/-- Input data of `SelectorConstant`. -/
structure ConstInput where
  n_constant : Nat
  /-- whether `base_model(n)` succeeds -/
  fit : Nat → Bool

/-- `SelectorConstant.select`: `return self.base_model(self.n_constant)`,
which is the fitted model on success and `None` on failure. -/
def SelectorConstant.select (inp : ConstInput) : Option Nat :=
  if inp.fit inp.n_constant then some inp.n_constant else none

/-! ## SelectorBIC -/

/-- Input data of `SelectorBIC`:  `d = len(self.lengths)` is the number of
training instances of the target word, `fit n` the success of
`base_model(n)`, `score n` the result of `model.score(self.X, self.lengths)`
for the model fitted with `n` states, and `log` the `np.log` oracle. -/
structure BICInput where
  minN : Nat
  maxN : Nat
  d : Nat
  fit : Nat → Bool
  score : Nat → Option ℚ
  log : Nat → ℚ

/-- The BIC criterion value of candidate `n`, when the iteration survives
its `try` block: `none` when `base_model` failed (so `current_model` is
`None` and `.score` raises) or when scoring raised; otherwise
`bic = -2 * curr_score + p * np.log(len(self.lengths))` with
`p = n**2 + 2*n*len(self.lengths) - 1`. -/
def bicOf (inp : BICInput) (n : Nat) : Option ℚ :=
  if inp.fit n then
    match inp.score n with
    | none => none
    | some L =>
      some (-2 * L + ((n : ℚ) ^ 2 + 2 * (n : ℚ) * (inp.d : ℚ) - 1) * inp.log inp.d)
  else none

/-- `SelectorBIC.select`: track the strictly smallest BIC over the candidate
range and return its model (`None` when every iteration raised). -/
def SelectorBIC.select (inp : BICInput) : Option Nat :=
  (runBest (bicOf inp) (fun a b => decide (a < b)) (candidates inp.minN inp.maxN)).2

/-! ## SelectorDIC -/

/-- Input data of `SelectorDIC`: `words` are the keys of `self.hwords` in
iteration order (the target word included), `scoreSelf n` is
`model.score(self.X, self.lengths)` for the `n`-state model, and
`scoreOther n w` is `model.score(x_w, l_w)` for word `w`'s flattened data. -/
structure DICInput where
  minN : Nat
  maxN : Nat
  words : List String
  this_word : String
  fit : Nat → Bool
  scoreSelf : Nat → Option ℚ
  scoreOther : Nat → String → Option ℚ

/-- The `score_sum` accumulation loop of `SelectorDIC.select`: sum the
scores of every listed word, aborting the candidate (`none`) as soon as one
scoring call raises. -/
def sumScores (score : String → Option ℚ) : List String → Option ℚ
  | [] => some 0
  | w :: ws =>
    match score w, sumScores score ws with
    | some v, some s => some (v + s)
    | _, _ => none

/-- The DIC criterion value of candidate `n`, when its iteration survives
the `try` block: `none` on fit failure, on any scoring failure, or on the
`ZeroDivisionError` raised by `1 / (len(self.hwords) - 1)` when the word map
has a single word; otherwise
`dic = curr_score - (1 / (len(self.hwords) - 1) * score_sum)` where
`score_sum` ranges over every word other than `self.this_word`. -/
def dicOf (inp : DICInput) (n : Nat) : Option ℚ :=
  if inp.fit n then
    match inp.scoreSelf n with
    | none => none
    | some L =>
      match sumScores (inp.scoreOther n) (inp.words.filter (fun w => w != inp.this_word)) with
      | none => none
      | some s =>
        if inp.words.length = 1 then none
        else some (L - 1 / ((inp.words.length : ℚ) - 1) * s)
  else none

/-- `SelectorDIC.select`: track the strictly largest DIC over the candidate
range and return its model. -/
def SelectorDIC.select (inp : DICInput) : Option Nat :=
  (runBest (dicOf inp) (fun a b => decide (a > b)) (candidates inp.minN inp.maxN)).2

/-! ## SelectorCV -/

/-- Comparison against a running best initialised to `float('-inf')`:
`none` is the sentinel, beaten by every rational. Used by `SelectorCV` and
by `recognize`. -/
def gtBest (v : ℚ) : Option ℚ → Bool
  | none => true
  | some b => decide (v > b)

/-- `KFold`'s default fold count for this project's library version. -/
def kfoldNumSplits : Nat := 3

/-- The fold sizes `KFold` assigns to `n` samples split `k` ways: the first
`n % k` folds get `n / k + 1` indices, the rest `n / k`. -/
def kfoldSizes (n k : Nat) : List Nat :=
  (List.range k).map (fun i => n / k + if i < n % k then 1 else 0)

/-- Cut consecutive index ranges of the given sizes starting at `start`. -/
def chunks : List Nat → Nat → List (List Nat)
  | [], _ => []
  | s :: rest, start => List.range' start s :: chunks rest (start + s)

/-- The ordered test-index folds produced by iterating
`KFold().split(self.sequences)` on `n` instances: `none` models the
`ValueError` raised on first iteration when `n < n_splits`, otherwise the
`n_splits` consecutive folds. -/
def kfoldFolds (n : Nat) : Option (List (List Nat)) :=
  if n < kfoldNumSplits then none
  else some (chunks (kfoldSizes n kfoldNumSplits) 0)

/-- Input data of `SelectorCV`: `numSeqs = len(self.sequences)` is the
word's instance count and `foldScore n t` the result of
`current_model.score(test_x, test_lengths)` where `test_x, test_lengths =
combine_sequences(t, self.sequences)` for the test-index list `t` and the
`n`-state model. -/
structure CVInput where
  minN : Nat
  maxN : Nat
  numSeqs : Nat
  fit : Nat → Bool
  foldScore : Nat → List Nat → Option ℚ

/-- The fold-scoring loop of one CV candidate: accumulate
`current_score` and `count` over the folds until a scoring call raises,
keeping whatever partial sum and count was reached. -/
def cvFoldLoop (score : List Nat → Option ℚ) : List (List Nat) → ℚ × Nat → ℚ × Nat
  | [], st => st
  | f :: rest, (s, c) =>
    match score f with
    | none => (s, c)
    | some v => cvFoldLoop score rest (s + v, c + 1)

/-- The `(current_score, count)` pair a CV candidate ends its `try` block
with.  `current_score = 0` and `count = 0` are (re)set before the fold loop
runs; a fit failure makes the first `current_model.score` raise an
`AttributeError` on `None`, and too few instances make fold iteration raise
a `ValueError`, so both leave `(0, 0)`. -/
def cvCandidate (inp : CVInput) (n : Nat) : ℚ × Nat :=
  if inp.fit n then
    match kfoldFolds inp.numSeqs with
    | none => (0, 0)
    | some fs => cvFoldLoop (inp.foldScore n) fs (0, 0)
  else (0, 0)

/-- The candidate's `average_score = current_score / count` after the guard
`count = 1 if count == 0 else count`. -/
def cvAvg (inp : CVInput) (n : Nat) : ℚ :=
  (cvCandidate inp n).1 / ((max (cvCandidate inp n).2 1 : Nat) : ℚ)

/-- One iteration of `SelectorCV.select`'s loop after the `try` block: the
average is compared against the running best for every candidate (failed
ones included), and on a win `best_model` becomes `current_model` — which is
`None` exactly when `base_model(n)` failed. -/
def SelectorCV.step (inp : CVInput) (st : Option ℚ × Option Nat) (n : Nat) :
    Option ℚ × Option Nat :=
  if gtBest (cvAvg inp n) st.1 then
    (some (cvAvg inp n), if inp.fit n then some n else none)
  else st

/-- The final `(best_score, best_model)` state of `SelectorCV.select`. -/
def SelectorCV.run (inp : CVInput) : Option ℚ × Option Nat :=
  (candidates inp.minN inp.maxN).foldl (SelectorCV.step inp) (none, none)

/-- `SelectorCV.select`: return the final `best_model`. -/
def SelectorCV.select (inp : CVInput) : Option Nat :=
  (SelectorCV.run inp).2

/-! ## recognize -/

/-- Input data of `recognize`: `models` are the keys of the model dict in
iteration order, `numItems` the test-set size, and `score i w` the result of
`models[w].score(x, x_lengths)` on test item `i`'s flattened data. -/
structure RecInput where
  models : List String
  numItems : Nat
  score : Nat → String → Option ℚ

/-- `dict.setdefault(w, v)` on a dict modelled as an insertion-ordered
association list: insert only when the key is absent. -/
def setdefault (l : List (String × ℚ)) (w : String) (v : ℚ) : List (String × ℚ) :=
  if l.any (fun p => p.1 == w) then l else l ++ [(w, v)]

/-- The per-item loop state of `recognize`: `all_scores = {}`,
`best_score = -inf`, `best_word = ""`. -/
structure RecState where
  all_scores : List (String × ℚ)
  best_score : Option ℚ
  best_word : String

/-- One word's iteration inside `recognize`'s inner loop: on a scoring
failure the bare `except: pass` leaves the state untouched; otherwise the
best guess is updated on a strict improvement and the word's score recorded
via `setdefault`. -/
def recognizeStep (score : String → Option ℚ) (st : RecState) (w : String) : RecState :=
  match score w with
  | none => st
  | some v =>
    let st1 := if gtBest v st.best_score then
        { st with best_score := some v, best_word := w }
      else st
    { st1 with all_scores := setdefault st1.all_scores w v }

/-- One test item's pass over all models: the item's score distribution and
best-guess word. -/
def recognizeItem (score : String → Option ℚ) (models : List String) :
    List (String × ℚ) × String :=
  let st := models.foldl (recognizeStep score) ⟨[], none, ""⟩
  (st.all_scores, st.best_word)

/-- `recognize`: append each test item's `all_scores` to `probabilities` and
its `best_word` to `guesses`, in test-item index order. -/
def recognize (inp : RecInput) : List (List (String × ℚ)) × List String :=
  ((List.range inp.numItems).map (fun i => (recognizeItem (inp.score i) inp.models).1),
   (List.range inp.numItems).map (fun i => (recognizeItem (inp.score i) inp.models).2))

/-! ## Concrete inputs used by witnesses and counterexamples -/

/-- A concrete BIC input: three candidates, complexity 4 fails to fit,
complexity 2 attains the smaller BIC. -/
def bicEx : BICInput :=
  { minN := 2, maxN := 4, d := 5,
    fit := fun n => n != 4,
    score := fun n => if n = 2 then some (-10) else some (-2),
    log := fun _ => 1 }

/-- A concrete DIC input: two words, candidate 3 fails to score against the
competing word, candidate 2 succeeds. -/
def dicEx : DICInput :=
  { minN := 2, maxN := 3, words := ["CAT", "DOG"], this_word := "CAT",
    fit := fun _ => true,
    scoreSelf := fun n => if n = 2 then some (-4) else some (-3),
    scoreOther := fun n _ => if n = 2 then some (-20) else none }

/-- A constant-selector input whose single fit fails. -/
def constExFail : ConstInput :=
  { n_constant := 3, fit := fun _ => false }

/-- A BIC input on which every fit fails. -/
def bicExFail : BICInput :=
  { minN := 2, maxN := 4, d := 5, fit := fun _ => false,
    score := fun _ => some (-1), log := fun _ => 1 }

/-- A DIC input on which every fit fails. -/
def dicExFail : DICInput :=
  { minN := 2, maxN := 4, words := ["CAT", "DOG"], this_word := "CAT",
    fit := fun _ => false, scoreSelf := fun _ => some (-1),
    scoreOther := fun _ _ => some (-1) }

/-- A CV input on which every fit fails. -/
def cvExFail : CVInput :=
  { minN := 2, maxN := 4, numSeqs := 6, fit := fun _ => false,
    foldScore := fun _ _ => some (-1) }

/-- A DIC input whose word map has a single word, every fit and every
scoring call succeeding. -/
def dicExSingle : DICInput :=
  { minN := 2, maxN := 4, words := ["FISH"], this_word := "FISH",
    fit := fun _ => true, scoreSelf := fun _ => some (-1),
    scoreOther := fun _ _ => some (-1) }

/-- A CV input where candidate 2 fits and scores `-3` per fold while
candidate 3 fails to fit. -/
def cvExOverride : CVInput :=
  { minN := 2, maxN := 3, numSeqs := 3,
    fit := fun n => n == 2,
    foldScore := fun n _ => if n = 2 then some (-3) else none }

/-- A CV input where every candidate fits, candidate 2 scoring best. -/
def cvExGood : CVInput :=
  { minN := 2, maxN := 3, numSeqs := 3,
    fit := fun _ => true,
    foldScore := fun n _ => if n = 2 then some (-3) else some (-6) }

/-- A CV input where candidate 2's fit fails while candidate 3 fits with a
negative average score. -/
def cvExC9 : CVInput :=
  { minN := 2, maxN := 3, numSeqs := 3,
    fit := fun n => n != 2,
    foldScore := fun n _ => if n = 3 then some (-3) else some (-1) }

/-- A CV input whose word has only 2 instances (fewer than the 3 folds),
every fit and every fold-scoring call succeeding. -/
def cvExSmall : CVInput :=
  { minN := 2, maxN := 3, numSeqs := 2,
    fit := fun _ => true,
    foldScore := fun _ _ => some (-1) }

/-- A concrete recognizer input: two models, two test items. -/
def recEx : RecInput :=
  { models := ["CAT", "DOG"], numItems := 2,
    score := fun _ w => if w == "CAT" then some (-50) else some (-42) }

/-! ## Properties of the shared best-tracking loop -/

theorem runBest_append (score : Nat → Option ℚ) (cmp : ℚ → ℚ → Bool)
    (l : List Nat) (x : Nat) :
    runBest score cmp (l ++ [x]) = bestStep score cmp (runBest score cmp l) x := by
  simp [runBest, List.foldl_append]

theorem foldl_bestStep_all_none (score : Nat → Option ℚ) (cmp : ℚ → ℚ → Bool)
    (l : List Nat) (st : Option ℚ × Option Nat) (h : ∀ n ∈ l, score n = none) :
    l.foldl (bestStep score cmp) st = st := by
  induction l generalizing st with
  | nil => rfl
  | cons x xs ih =>
    have hx : score x = none := h x (by simp)
    rw [List.foldl_cons]
    have hstep : bestStep score cmp st x = st := by simp [bestStep, hx]
    rw [hstep]
    exact ih st (fun n hn => h n (by simp [hn]))

/-- Characterisation of the best-tracking loop shared by the BIC and DIC
selectors, for any strict comparison `cmp` that is transitive, total and
irreflexive: either no candidate's criterion was available and both the best
score and the best model stay `None`, or the final best score is realised by
the returned model, no candidate's criterion beats it, and the returned
model strictly beats every earlier candidate (first-seen wins ties). -/
theorem runBest_spec (score : Nat → Option ℚ) (cmp : ℚ → ℚ → Bool)
    (htrans : ∀ a b c : ℚ, cmp a b = true → cmp b c = true → cmp a c = true)
    (htotal : ∀ a b : ℚ, a ≠ b → cmp a b = true ∨ cmp b a = true)
    (hirr : ∀ a : ℚ, cmp a a = false)
    (l : List Nat) (hl : l.Pairwise (· < ·)) :
    ((runBest score cmp l).1 = none →
      (runBest score cmp l).2 = none ∧ ∀ n ∈ l, score n = none) ∧
    (∀ v : ℚ, (runBest score cmp l).1 = some v →
      ∃ n, (runBest score cmp l).2 = some n ∧ n ∈ l ∧ score n = some v ∧
        (∀ k ∈ l, ∀ u, score k = some u → cmp u v = false) ∧
        (∀ k ∈ l, k < n → ∀ u, score k = some u → cmp v u = true)) := by
  induction l using List.reverseRecOn with
  | nil =>
    constructor
    · intro _
      exact ⟨rfl, by simp⟩
    · intro v hv
      simp [runBest] at hv
  | append_singleton l x ih =>
    have hp := List.pairwise_append.mp hl
    have hl1 : l.Pairwise (· < ·) := hp.1
    have hlt : ∀ a ∈ l, a < x := fun a ha => hp.2.2 a ha x (by simp)
    obtain ⟨ihn, ihs⟩ := ih hl1
    rw [runBest_append]
    rcases hx : score x with _ | v
    · have hstep : bestStep score cmp (runBest score cmp l) x = runBest score cmp l := by
        simp [bestStep, hx]
      rw [hstep]
      constructor
      · intro h1
        obtain ⟨h2, h3⟩ := ihn h1
        refine ⟨h2, ?_⟩
        intro n hn
        rcases List.mem_append.mp hn with h | h
        · exact h3 n h
        · simp at h
          subst h
          exact hx
      · intro w hw
        obtain ⟨n, h2, hnl, hsn, hdom, hfirst⟩ := ihs w hw
        refine ⟨n, h2, List.mem_append_left _ hnl, hsn, ?_, ?_⟩
        · intro k hk u hu
          rcases List.mem_append.mp hk with h | h
          · exact hdom k h u hu
          · simp at h
            subst h
            rw [hx] at hu
            exact absurd hu (by simp)
        · intro k hk hkn u hu
          rcases List.mem_append.mp hk with h | h
          · exact hfirst k h hkn u hu
          · simp at h
            subst h
            rw [hx] at hu
            exact absurd hu (by simp)
    · rcases hr : (runBest score cmp l).1 with _ | b
      · obtain ⟨h2, h3⟩ := ihn hr
        have hstep : bestStep score cmp (runBest score cmp l) x = (some v, some x) := by
          simp [bestStep, hx, hr]
        rw [hstep]
        constructor
        · intro h
          simp at h
        · intro w hw
          have hw' : v = w := by simpa using hw
          subst hw'
          refine ⟨x, rfl, by simp, hx, ?_, ?_⟩
          · intro k hk u hu
            rcases List.mem_append.mp hk with h | h
            · rw [h3 k h] at hu
              exact absurd hu (by simp)
            · simp at h
              subst h
              rw [hx] at hu
              have : v = u := by simpa using hu
              subst this
              exact hirr v
          · intro k hk hkn u hu
            rcases List.mem_append.mp hk with h | h
            · rw [h3 k h] at hu
              exact absurd hu (by simp)
            · simp at h
              subst h
              exact absurd hkn (lt_irrefl k)
      · obtain ⟨n', hn2, hn'l, hsn', hdom', hfirst'⟩ := ihs b hr
        rcases hcmp : cmp v b with _ | _
        · have hstep : bestStep score cmp (runBest score cmp l) x = runBest score cmp l := by
            simp [bestStep, hx, hr, hcmp]
          rw [hstep]
          constructor
          · intro h1
            rw [hr] at h1
            exact absurd h1 (by simp)
          · intro w hw
            rw [hr] at hw
            have hw' : b = w := by simpa using hw
            subst hw'
            refine ⟨n', hn2, List.mem_append_left _ hn'l, hsn', ?_, ?_⟩
            · intro k hk u hu
              rcases List.mem_append.mp hk with h | h
              · exact hdom' k h u hu
              · simp at h
                subst h
                rw [hx] at hu
                have : v = u := by simpa using hu
                subst this
                exact hcmp
            · intro k hk hkn u hu
              rcases List.mem_append.mp hk with h | h
              · exact hfirst' k h hkn u hu
              · simp at h
                subst h
                have := hlt n' hn'l
                omega
        · have hstep : bestStep score cmp (runBest score cmp l) x = (some v, some x) := by
            simp [bestStep, hx, hr, hcmp]
          rw [hstep]
          constructor
          · intro h
            simp at h
          · intro w hw
            have hw' : v = w := by simpa using hw
            subst hw'
            refine ⟨x, rfl, by simp, hx, ?_, ?_⟩
            · intro k hk u hu
              rcases List.mem_append.mp hk with h | h
              · have hub : cmp u b = false := hdom' k h u hu
                by_contra hc
                have hc' : cmp u v = true := by
                  revert hc
                  cases cmp u v <;> simp
                have : cmp u b = true := htrans u v b hc' hcmp
                rw [hub] at this
                exact absurd this (by simp)
              · simp at h
                subst h
                rw [hx] at hu
                have : v = u := by simpa using hu
                subst this
                exact hirr v
            · intro k hk hkn u hu
              rcases List.mem_append.mp hk with h | h
              · have hub : cmp u b = false := hdom' k h u hu
                have huv : cmp u v = false := by
                  by_contra hc
                  have hc' : cmp u v = true := by
                    revert hc
                    cases cmp u v <;> simp
                  have : cmp u b = true := htrans u v b hc' hcmp
                  rw [hub] at this
                  exact absurd this (by simp)
                have hne : u ≠ v := by
                  intro he
                  subst he
                  rw [hcmp] at hub
                  exact absurd hub (by simp)
                rcases htotal u v hne with h1 | h1
                · rw [huv] at h1
                  exact absurd h1 (by simp)
                · exact h1
              · simp at h
                subst h
                exact absurd hkn (lt_irrefl k)

theorem candidates_pairwise (minN maxN : Nat) :
    (candidates minN maxN).Pairwise (· < ·) := by
  simpa [candidates] using List.pairwise_lt_range' minN (maxN + 1 - minN)

/-- C2: for every BIC input on which at least one candidate complexity fits
and scores successfully, the returned model is the first candidate (in
ascending complexity order) attaining the strictly minimal BIC among
successfully fit-and-scored candidates, where
`BIC = -2 L + p log d`, `p = n^2 + 2 n d - 1`, and `d` is the sequence count
of the target word. -/
theorem C2_bic_select_first_strict_min (inp : BICInput)
    (hex : ∃ m ∈ candidates inp.minN inp.maxN, bicOf inp m ≠ none) :
    ∃ n b L, SelectorBIC.select inp = some n ∧ n ∈ candidates inp.minN inp.maxN ∧
      inp.fit n = true ∧ inp.score n = some L ∧
      b = -2 * L + ((n : ℚ) ^ 2 + 2 * (n : ℚ) * (inp.d : ℚ) - 1) * inp.log inp.d ∧
      bicOf inp n = some b ∧
      (∀ m ∈ candidates inp.minN inp.maxN, ∀ b', bicOf inp m = some b' → b ≤ b') ∧
      (∀ m ∈ candidates inp.minN inp.maxN, m < n → ∀ b', bicOf inp m = some b' → b < b') := by
  have hl := candidates_pairwise inp.minN inp.maxN
  obtain ⟨hnone, hsome⟩ := runBest_spec (bicOf inp) (fun a b => decide (a < b))
    (by intro a b c h1 h2
        simp only [decide_eq_true_eq] at h1 h2 ⊢
        exact lt_trans h1 h2)
    (by intro a b hne
        rcases lt_or_gt_of_ne hne with h | h
        · exact Or.inl (by simpa using h)
        · exact Or.inr (by simpa using h))
    (by intro a; simp)
    (candidates inp.minN inp.maxN) hl
  obtain ⟨m, hm, hms⟩ := hex
  rcases hb : (runBest (bicOf inp) (fun a b => decide (a < b))
      (candidates inp.minN inp.maxN)).1 with _ | v
  · exact absurd ((hnone hb).2 m hm) hms
  · obtain ⟨n, h2, hnl, hsn, hdom, hfirst⟩ := hsome v hb
    have hfit : inp.fit n = true := by
      rcases hf : inp.fit n with _ | _
      · simp [bicOf, hf] at hsn
      · rfl
    obtain ⟨L, hsc⟩ : ∃ L, inp.score n = some L := by
      rcases hs : inp.score n with _ | L
      · simp [bicOf, hfit, hs] at hsn
      · exact ⟨L, rfl⟩
    have hv : v = -2 * L + ((n : ℚ) ^ 2 + 2 * (n : ℚ) * (inp.d : ℚ) - 1) * inp.log inp.d := by
      have h := hsn
      simp [bicOf, hfit, hsc] at h
      rw [← h]
      ring
    refine ⟨n, v, L, by simpa [SelectorBIC.select] using h2, hnl, hfit, hsc, hv, hsn, ?_, ?_⟩
    · intro m' hm' b' hb'
      have h := hdom m' hm' b' hb'
      have h' : ¬ b' < v := by simpa using h
      exact le_of_not_lt h'
    · intro m' hm' hlt' b' hb'
      have h := hfirst m' hm' hlt' b' hb'
      simpa using h

/-- Witness for C2 at `bicEx`. -/
theorem C2_witness :
    (∃ m ∈ candidates bicEx.minN bicEx.maxN, bicOf bicEx m ≠ none) ∧
    (∃ n b L, SelectorBIC.select bicEx = some n ∧ n ∈ candidates bicEx.minN bicEx.maxN ∧
      bicEx.fit n = true ∧ bicEx.score n = some L ∧
      b = -2 * L + ((n : ℚ) ^ 2 + 2 * (n : ℚ) * (bicEx.d : ℚ) - 1) * bicEx.log bicEx.d ∧
      bicOf bicEx n = some b ∧
      (∀ m ∈ candidates bicEx.minN bicEx.maxN, ∀ b', bicOf bicEx m = some b' → b ≤ b') ∧
      (∀ m ∈ candidates bicEx.minN bicEx.maxN, m < n → ∀ b',
        bicOf bicEx m = some b' → b < b')) :=
  ⟨⟨2, by decide, by decide⟩, C2_bic_select_first_strict_min bicEx ⟨2, by decide, by decide⟩⟩

/-- C3: for every DIC input with at least two distinct words on which at
least one candidate's iteration succeeds, the returned model is the first
candidate attaining the strictly maximal
`DIC = L_self - (1/(M-1)) * L_other`, where `L_other` sums the other words'
log-likelihoods under the candidate's model and `M` is the word count. -/
theorem C3_dic_select_first_strict_max (inp : DICInput)
    (hM : 2 ≤ inp.words.length)
    (hex : ∃ m ∈ candidates inp.minN inp.maxN, dicOf inp m ≠ none) :
    ∃ n b L s, SelectorDIC.select inp = some n ∧ n ∈ candidates inp.minN inp.maxN ∧
      inp.fit n = true ∧ inp.scoreSelf n = some L ∧
      sumScores (inp.scoreOther n) (inp.words.filter (fun w => w != inp.this_word)) = some s ∧
      b = L - 1 / ((inp.words.length : ℚ) - 1) * s ∧
      dicOf inp n = some b ∧
      (∀ m ∈ candidates inp.minN inp.maxN, ∀ b', dicOf inp m = some b' → b' ≤ b) ∧
      (∀ m ∈ candidates inp.minN inp.maxN, m < n → ∀ b', dicOf inp m = some b' → b' < b) := by
  have hl := candidates_pairwise inp.minN inp.maxN
  obtain ⟨hnone, hsome⟩ := runBest_spec (dicOf inp) (fun a b => decide (a > b))
    (by intro a b c h1 h2
        simp only [decide_eq_true_eq] at h1 h2 ⊢
        exact lt_trans h2 h1)
    (by intro a b hne
        rcases lt_or_gt_of_ne hne with h | h
        · exact Or.inr (by simpa using h)
        · exact Or.inl (by simpa using h))
    (by intro a; simp)
    (candidates inp.minN inp.maxN) hl
  obtain ⟨m, hm, hms⟩ := hex
  rcases hb : (runBest (dicOf inp) (fun a b => decide (a > b))
      (candidates inp.minN inp.maxN)).1 with _ | v
  · exact absurd ((hnone hb).2 m hm) hms
  · obtain ⟨n, h2, hnl, hsn, hdom, hfirst⟩ := hsome v hb
    have hfit : inp.fit n = true := by
      rcases hf : inp.fit n with _ | _
      · simp [dicOf, hf] at hsn
      · rfl
    obtain ⟨L, hsc⟩ : ∃ L, inp.scoreSelf n = some L := by
      rcases hs : inp.scoreSelf n with _ | L
      · simp [dicOf, hfit, hs] at hsn
      · exact ⟨L, rfl⟩
    obtain ⟨s, hsum⟩ : ∃ s, sumScores (inp.scoreOther n)
        (inp.words.filter (fun w => w != inp.this_word)) = some s := by
      rcases hs : sumScores (inp.scoreOther n)
          (inp.words.filter (fun w => w != inp.this_word)) with _ | s
      · simp [dicOf, hfit, hsc, hs] at hsn
      · exact ⟨s, rfl⟩
    have hlen : inp.words.length ≠ 1 := by omega
    have hv : v = L - 1 / ((inp.words.length : ℚ) - 1) * s := by
      have h := hsn
      simp [dicOf, hfit, hsc, hsum, hlen] at h
      rw [← h]
      ring
    refine ⟨n, v, L, s, by simpa [SelectorDIC.select] using h2, hnl, hfit, hsc, hsum, hv,
      hsn, ?_, ?_⟩
    · intro m' hm' b' hb'
      have h := hdom m' hm' b' hb'
      have h' : ¬ b' > v := by simpa using h
      exact le_of_not_lt h'
    · intro m' hm' hlt' b' hb'
      have h := hfirst m' hm' hlt' b' hb'
      simpa using h

/-- Witness for C3 at `dicEx`. -/
theorem C3_witness :
    (2 ≤ dicEx.words.length ∧ ∃ m ∈ candidates dicEx.minN dicEx.maxN, dicOf dicEx m ≠ none) ∧
    (∃ n b L s, SelectorDIC.select dicEx = some n ∧ n ∈ candidates dicEx.minN dicEx.maxN ∧
      dicEx.fit n = true ∧ dicEx.scoreSelf n = some L ∧
      sumScores (dicEx.scoreOther n) (dicEx.words.filter (fun w => w != dicEx.this_word)) =
        some s ∧
      b = L - 1 / ((dicEx.words.length : ℚ) - 1) * s ∧
      dicOf dicEx n = some b ∧
      (∀ m ∈ candidates dicEx.minN dicEx.maxN, ∀ b', dicOf dicEx m = some b' → b' ≤ b) ∧
      (∀ m ∈ candidates dicEx.minN dicEx.maxN, m < n → ∀ b',
        dicOf dicEx m = some b' → b' < b)) :=
  ⟨⟨by decide, ⟨2, by decide, by decide⟩⟩,
    C3_dic_select_first_strict_max dicEx (by decide) ⟨2, by decide, by decide⟩⟩

theorem foldl_cvStep_model_none (inp : CVInput) :
    ∀ (l : List Nat) (st : Option ℚ × Option Nat),
      (∀ n ∈ l, inp.fit n = false) → st.2 = none →
      (l.foldl (SelectorCV.step inp) st).2 = none
  | [], _, _, hst => hst
  | x :: xs, st, hfit, hst => by
    rw [List.foldl_cons]
    refine foldl_cvStep_model_none inp xs _ (fun n hn => hfit n (by simp [hn])) ?_
    rcases hgt : gtBest (cvAvg inp x) st.1 with _ | _
    · simpa [SelectorCV.step, hgt] using hst
    · simp [SelectorCV.step, hgt, hfit x (by simp)]

/-- C4: for every selector, if every candidate complexity in the configured
range (respectively the constant complexity) fails to fit, `select()`
returns absence. -/
theorem C4_absence_when_all_fits_fail :
    (∀ inp : ConstInput, inp.fit inp.n_constant = false →
      SelectorConstant.select inp = none) ∧
    (∀ inp : BICInput, (∀ n ∈ candidates inp.minN inp.maxN, inp.fit n = false) →
      SelectorBIC.select inp = none) ∧
    (∀ inp : DICInput, (∀ n ∈ candidates inp.minN inp.maxN, inp.fit n = false) →
      SelectorDIC.select inp = none) ∧
    (∀ inp : CVInput, (∀ n ∈ candidates inp.minN inp.maxN, inp.fit n = false) →
      SelectorCV.select inp = none) := by
  refine ⟨?_, ?_, ?_, ?_⟩
  · intro inp h
    simp [SelectorConstant.select, h]
  · intro inp h
    have hall : ∀ n ∈ candidates inp.minN inp.maxN, bicOf inp n = none := by
      intro n hn
      simp [bicOf, h n hn]
    have := foldl_bestStep_all_none (bicOf inp) (fun a b => decide (a < b))
      (candidates inp.minN inp.maxN) (none, none) hall
    simpa [SelectorBIC.select, runBest] using congrArg Prod.snd this
  · intro inp h
    have hall : ∀ n ∈ candidates inp.minN inp.maxN, dicOf inp n = none := by
      intro n hn
      simp [dicOf, h n hn]
    have := foldl_bestStep_all_none (dicOf inp) (fun a b => decide (a > b))
      (candidates inp.minN inp.maxN) (none, none) hall
    simpa [SelectorDIC.select, runBest] using congrArg Prod.snd this
  · intro inp h
    exact foldl_cvStep_model_none inp (candidates inp.minN inp.maxN) (none, none) h rfl

/-- Witness for C4 at the four all-fits-fail inputs. -/
theorem C4_witness :
    SelectorConstant.select constExFail = none ∧
    SelectorBIC.select bicExFail = none ∧
    SelectorDIC.select dicExFail = none ∧
    SelectorCV.select cvExFail = none :=
  ⟨C4_absence_when_all_fits_fail.1 constExFail (by decide),
   C4_absence_when_all_fits_fail.2.1 bicExFail (by decide),
   C4_absence_when_all_fits_fail.2.2.1 dicExFail (by decide),
   C4_absence_when_all_fits_fail.2.2.2 cvExFail (by decide)⟩

/-- C10: when the word map contains exactly one word, `SelectorDIC.select`
returns absence for every complexity range and every oracle outcome,
because `1 / (len(self.hwords) - 1)` raises `ZeroDivisionError` and every
candidate is skipped. -/
theorem C10_dic_single_word_returns_absence (inp : DICInput)
    (hM : inp.words.length = 1) :
    SelectorDIC.select inp = none := by
  have hall : ∀ n ∈ candidates inp.minN inp.maxN, dicOf inp n = none := by
    intro n _
    rcases hfit : inp.fit n with _ | _
    · simp [dicOf, hfit]
    · rcases hs : inp.scoreSelf n with _ | L
      · simp [dicOf, hfit, hs]
      · rcases hsum : sumScores (inp.scoreOther n)
            (inp.words.filter (fun w => w != inp.this_word)) with _ | s
        · simp [dicOf, hfit, hs, hsum]
        · simp [dicOf, hfit, hs, hsum, hM]
  have := foldl_bestStep_all_none (dicOf inp) (fun a b => decide (a > b))
    (candidates inp.minN inp.maxN) (none, none) hall
  simpa [SelectorDIC.select, runBest] using congrArg Prod.snd this

/-- Witness for C10 at `dicExSingle`. -/
theorem C10_witness :
    dicExSingle.words.length = 1 ∧ SelectorDIC.select dicExSingle = none :=
  ⟨by decide, C10_dic_single_word_returns_absence dicExSingle (by decide)⟩

/-! ## Properties of the CV selection loop -/

theorem foldl_cvStep_winner (inp : CVInput) :
    ∀ (l : List Nat) (st : Option ℚ × Option Nat) (n : Nat),
      (l.foldl (SelectorCV.step inp) st).2 = some n →
      st.2 = some n ∨ (n ∈ l ∧ inp.fit n = true)
  | [], _, _, h => Or.inl h
  | x :: xs, st, n, h => by
    rw [List.foldl_cons] at h
    rcases foldl_cvStep_winner inp xs _ n h with h1 | h1
    · rcases hgt : gtBest (cvAvg inp x) st.1 with _ | _
      · left
        simpa [SelectorCV.step, hgt] using h1
      · rcases hfit : inp.fit x with _ | _
        · simp [SelectorCV.step, hgt, hfit] at h1
        · have hx : x = n := by simpa [SelectorCV.step, hgt, hfit] using h1
          subst hx
          exact Or.inr ⟨by simp, hfit⟩
    · exact Or.inr ⟨by simp [h1.1], h1.2⟩

theorem foldl_cvStep_nonneg (inp : CVInput) :
    ∀ (l : List Nat) (st : Option ℚ × Option Nat) (w : ℚ),
      st.1 = some w → 0 ≤ w →
      ∃ w', (l.foldl (SelectorCV.step inp) st).1 = some w' ∧ 0 ≤ w'
  | [], _, w, h1, hw => ⟨w, h1, hw⟩
  | x :: xs, st, w, h1, hw => by
    rw [List.foldl_cons]
    rcases hgt : gtBest (cvAvg inp x) st.1 with _ | _
    · have hstep : SelectorCV.step inp st x = st := by simp [SelectorCV.step, hgt]
      rw [hstep]
      exact foldl_cvStep_nonneg inp xs st w h1 hw
    · have havg : 0 ≤ cvAvg inp x := by
        rw [h1] at hgt
        have h : cvAvg inp x > w := by simpa [gtBest] using hgt
        linarith
      have hstep : SelectorCV.step inp st x =
          (some (cvAvg inp x), if inp.fit x then some x else none) := by
        simp [SelectorCV.step, hgt]
      rw [hstep]
      exact foldl_cvStep_nonneg inp xs _ (cvAvg inp x) rfl havg

theorem foldl_cvStep_no_negative_winner (inp : CVInput) :
    ∀ (l : List Nat) (st : Option ℚ × Option Nat) (w : ℚ) (n : Nat),
      st.1 = some w → 0 ≤ w → st.2 ≠ some n → cvAvg inp n < 0 →
      (l.foldl (SelectorCV.step inp) st).2 ≠ some n
  | [], _, _, _, _, _, hst2, _ => hst2
  | x :: xs, st, w, n, hst1, hw, hst2, hneg => by
    rw [List.foldl_cons]
    rcases hgt : gtBest (cvAvg inp x) st.1 with _ | _
    · have hstep : SelectorCV.step inp st x = st := by simp [SelectorCV.step, hgt]
      rw [hstep]
      exact foldl_cvStep_no_negative_winner inp xs st w n hst1 hw hst2 hneg
    · have havg : 0 ≤ cvAvg inp x := by
        rw [hst1] at hgt
        have h : cvAvg inp x > w := by simpa [gtBest] using hgt
        linarith
      have hxn : x ≠ n := by
        intro he
        subst he
        linarith
      have hstep : SelectorCV.step inp st x =
          (some (cvAvg inp x), if inp.fit x then some x else none) := by
        simp [SelectorCV.step, hgt]
      rw [hstep]
      refine foldl_cvStep_no_negative_winner inp xs _ (cvAvg inp x) n rfl havg ?_ hneg
      rcases hfit : inp.fit x with _ | _
      · simp [hfit]
      · simpa [hfit] using hxn

/-- C1 (amended): whenever `SelectorCV.select` returns a model, that model's
fit succeeded and it is one of the candidates; but a candidate whose fit
fails is not skipped for winner consideration — it competes with average
`0.0` and, on winning, `best_model` becomes `None`, so `select()` returns
absence even when another candidate's fit succeeded (see the
counterexample). -/
theorem C1_cv_returned_model_fit_succeeded (inp : CVInput) (n : Nat)
    (h : SelectorCV.select inp = some n) :
    inp.fit n = true ∧ n ∈ candidates inp.minN inp.maxN := by
  rcases foldl_cvStep_winner inp (candidates inp.minN inp.maxN) (none, none) n h with h1 | h1
  · exact absurd h1 (by simp)
  · exact ⟨h1.2, h1.1⟩

/-- Counterexample to C1 as stated: in `cvExOverride` the fit of candidate 3
fails, yet that candidate enters winner consideration with average `0.0`,
beats candidate 2's average `-3`, and `select()` returns absence even though
candidate 2's fit succeeded — contradicting "the model returned by
`select()` is one whose fit succeeded (or absence if none succeeded)". -/
theorem C1_counterexample :
    cvExOverride.fit 3 = false ∧ cvExOverride.fit 2 = true ∧
    cvAvg cvExOverride 2 = -3 ∧ cvAvg cvExOverride 3 = 0 ∧
    SelectorCV.run cvExOverride = (some 0, none) ∧
    SelectorCV.select cvExOverride = none := by
  with_unfolding_all decide

/-- Witness for the amended C1 at `cvExGood`. -/
theorem C1_witness :
    SelectorCV.select cvExGood = some 2 ∧
    (cvExGood.fit 2 = true ∧ 2 ∈ candidates cvExGood.minN cvExGood.maxN) :=
  ⟨by with_unfolding_all decide,
   C1_cv_returned_model_fit_succeeded cvExGood 2 (by with_unfolding_all decide)⟩

/-- C9: a CV candidate whose fit fails, or whose folds all fail to score,
still enters the winner comparison with average exactly `0.0` (zero sum
over a count floored to 1); consequently the final best score is
nonnegative, and no later candidate with a negative average ever becomes
the winner. -/
theorem C9_cv_failed_candidate_competes_at_zero (inp : CVInput) (j : Nat)
    (hj : j ∈ candidates inp.minN inp.maxN)
    (hfail : inp.fit j = false ∨
      ∀ t ∈ (kfoldFolds inp.numSeqs).getD [], inp.foldScore j t = none) :
    cvAvg inp j = 0 ∧
    (∃ w, (SelectorCV.run inp).1 = some w ∧ 0 ≤ w) ∧
    (∀ n ∈ candidates inp.minN inp.maxN, j < n → cvAvg inp n < 0 →
      SelectorCV.select inp ≠ some n) := by
  have hcand : cvCandidate inp j = (0, 0) := by
    rcases hfail with hf | hf
    · simp [cvCandidate, hf]
    · rcases hfit : inp.fit j with _ | _
      · simp [cvCandidate, hfit]
      · rcases hk : kfoldFolds inp.numSeqs with _ | fs
        · simp [cvCandidate, hfit, hk]
        · rcases fs with _ | ⟨f, rest⟩
          · simp [cvCandidate, hfit, hk, cvFoldLoop]
          · have hfs : inp.foldScore j f = none := by
              apply hf
              simp [hk]
            simp [cvCandidate, hfit, hk, cvFoldLoop, hfs]
  have havg : cvAvg inp j = 0 := by simp [cvAvg, hcand]
  obtain ⟨l1, l2, hsplit⟩ := List.append_of_mem hj
  have hpw := candidates_pairwise inp.minN inp.maxN
  rw [hsplit] at hpw
  obtain ⟨hpw1, hpw2⟩ := List.pairwise_append.mp hpw
  have hl1_lt : ∀ a ∈ l1, a < j := fun a ha => hpw2.2 a ha j (by simp)
  set st1 := l1.foldl (SelectorCV.step inp) (none, none) with hst1_def
  set st2 := SelectorCV.step inp st1 j with hst2_def
  have hrun : SelectorCV.run inp = l2.foldl (SelectorCV.step inp) st2 := by
    rw [SelectorCV.run, hsplit, List.foldl_append, List.foldl_cons]
  have hst2_best : ∃ w, st2.1 = some w ∧ 0 ≤ w := by
    rcases hgt : gtBest (cvAvg inp j) st1.1 with _ | _
    · rcases hb : st1.1 with _ | b
      · rw [hb] at hgt
        simp [gtBest] at hgt
      · rw [hb, havg] at hgt
        have hble : 0 ≤ b := by
          have h := hgt
          simp [gtBest] at h
          linarith
        refine ⟨b, ?_, hble⟩
        rw [hst2_def]
        simp [SelectorCV.step, havg, hb, hgt]
    · refine ⟨cvAvg inp j, ?_, le_of_eq havg.symm⟩
      rw [hst2_def]
      simp [SelectorCV.step, hgt]
  obtain ⟨w, hw1, hw2⟩ := hst2_best
  refine ⟨havg, ?_, ?_⟩
  · rw [hrun]
    exact foldl_cvStep_nonneg inp l2 st2 w hw1 hw2
  · intro n hn hjn hneg hsel
    have hst2_not_n : st2.2 ≠ some n := by
      rcases hgt : gtBest (cvAvg inp j) st1.1 with _ | _
      · have hstep : st2 = st1 := by
          rw [hst2_def]
          simp [SelectorCV.step, hgt]
        rw [hstep]
        intro hc
        rcases foldl_cvStep_winner inp l1 (none, none) n hc with h1 | h1
        · exact absurd h1 (by simp)
        · exact absurd (hl1_lt n h1.1) (by omega)
      · have hstep : st2 = (some (cvAvg inp j), if inp.fit j then some j else none) := by
          rw [hst2_def]
          simp [SelectorCV.step, hgt]
        rw [hstep]
        rcases hfit : inp.fit j with _ | _
        · simp [hfit]
        · simp [hfit]
          omega
    rw [SelectorCV.select, hrun] at hsel
    exact foldl_cvStep_no_negative_winner inp l2 st2 w n hw1 hw2 hst2_not_n hneg hsel

/-- Witness for C9 at `cvExC9` with the failed candidate 2 and the later
negative candidate 3. -/
theorem C9_witness :
    (2 ∈ candidates cvExC9.minN cvExC9.maxN ∧ cvExC9.fit 2 = false) ∧
    (cvAvg cvExC9 2 = 0 ∧
      (∃ w, (SelectorCV.run cvExC9).1 = some w ∧ 0 ≤ w) ∧
      (∀ n ∈ candidates cvExC9.minN cvExC9.maxN, 2 < n → cvAvg cvExC9 n < 0 →
        SelectorCV.select cvExC9 ≠ some n)) :=
  ⟨⟨by decide, by decide⟩,
   C9_cv_failed_candidate_competes_at_zero cvExC9 2 (by decide) (Or.inl (by decide))⟩

/-! ## Properties of the KFold partition -/

theorem chunks_join : ∀ (sizes : List Nat) (start : Nat),
    (chunks sizes start).flatten = List.range' start sizes.sum
  | [], start => by simp [chunks]
  | s :: rest, start => by
    rw [chunks, List.flatten_cons, chunks_join rest (start + s), List.sum_cons]
    have h := List.range'_append start s rest.sum 1
    simpa [Nat.add_comm] using h

theorem chunks_length : ∀ (sizes : List Nat) (start : Nat),
    (chunks sizes start).length = sizes.length
  | [], _ => rfl
  | _ :: rest, start => by
    rw [chunks, List.length_cons, chunks_length rest, List.length_cons]

theorem chunks_mem : ∀ (sizes : List Nat) (start : Nat) (f : List Nat),
    f ∈ chunks sizes start → ∃ sz st, sz ∈ sizes ∧ f = List.range' st sz
  | [], _, f, h => by simp [chunks] at h
  | s :: rest, start, f, h => by
    rw [chunks] at h
    rcases List.mem_cons.mp h with h1 | h1
    · exact ⟨s, start, by simp, h1⟩
    · obtain ⟨sz, st, hs, hf⟩ := chunks_mem rest (start + s) f h1
      exact ⟨sz, st, by simp [hs], hf⟩

theorem kfoldSizes_sum (n : Nat) : (kfoldSizes n 3).sum = n := by
  show ((List.range 3).map (fun i => n / 3 + if i < n % 3 then 1 else 0)).sum = n
  have hr : List.range 3 = [0, 1, 2] := rfl
  rw [hr]
  simp only [List.map_cons, List.map_nil, List.sum_cons, List.sum_nil]
  split_ifs <;> omega

/-- C5 (amended): every CV candidate attempts a partition into the default
3 folds.  With at least 3 instances the instance indices `range(numSeqs)`
are partitioned into exactly 3 consecutive nonempty folds (which the fold
loop then scores).  With fewer instances than folds there is no graceful
degradation: fold generation raises, no fold is produced or scored, and the
candidate's `(current_score, count)` stays `(0, 0)`, giving average `0`. -/
theorem C5_kfold_partition_and_degradation (n : Nat) :
    (3 ≤ n → ∃ fs, kfoldFolds n = some fs ∧ fs.length = 3 ∧
      fs.flatten = List.range n ∧ ∀ f ∈ fs, f ≠ []) ∧
    (n < 3 → kfoldFolds n = none ∧ ∀ (inp : CVInput) (m : Nat),
      inp.numSeqs = n → cvCandidate inp m = (0, 0) ∧ cvAvg inp m = 0) := by
  constructor
  · intro h3
    refine ⟨chunks (kfoldSizes n 3) 0, ?_, ?_, ?_, ?_⟩
    · simp [kfoldFolds, kfoldNumSplits]
      omega
    · rw [chunks_length]
      simp [kfoldSizes]
    · rw [chunks_join, kfoldSizes_sum]
      exact (List.range_eq_range' n).symm
    · intro f hf
      obtain ⟨sz, st, hs, hf'⟩ := chunks_mem _ _ f hf
      have hsz : 1 ≤ sz := by
        simp [kfoldSizes] at hs
        obtain ⟨i, hi, he⟩ := hs
        have hd : 1 ≤ n / 3 := by omega
        omega
      subst hf'
      intro he
      have := congrArg List.length he
      simp [List.length_range'] at this
      omega
  · intro hn
    have hk : kfoldFolds n = none := by
      simp [kfoldFolds, kfoldNumSplits, hn]
    refine ⟨hk, ?_⟩
    intro inp m hm
    have hc : cvCandidate inp m = (0, 0) := by
      rcases hfit : inp.fit m with _ | _
      · simp [cvCandidate, hfit]
      · simp [cvCandidate, hfit, hm, hk]
    exact ⟨hc, by simp [cvAvg, hc]⟩

/-- Counterexample to C5 as stated: with 2 instances and the default 3
folds, no fold is produced or scored at all — the fold iteration raises,
`count` stays 0, and the candidate degrades to average `0.0` — even though
every fold-scoring call would have succeeded.  This contradicts "folds are
still produced and scored". -/
theorem C5_counterexample :
    cvExSmall.numSeqs < kfoldNumSplits ∧
    kfoldFolds cvExSmall.numSeqs = none ∧
    cvExSmall.fit 2 = true ∧
    cvExSmall.foldScore 2 [0] = some (-1) ∧
    cvCandidate cvExSmall 2 = (0, 0) ∧
    cvAvg cvExSmall 2 = 0 := by
  with_unfolding_all decide

/-- Witness for the amended C5 on both sides of the instance-count split. -/
theorem C5_witness :
    (3 ≤ 5 ∧ ∃ fs, kfoldFolds 5 = some fs ∧ fs.length = 3 ∧
      fs.flatten = List.range 5 ∧ ∀ f ∈ fs, f ≠ []) ∧
    (2 < 3 ∧ (kfoldFolds 2 = none ∧ ∀ (inp : CVInput) (m : Nat),
      inp.numSeqs = 2 → cvCandidate inp m = (0, 0) ∧ cvAvg inp m = 0)) :=
  ⟨⟨by decide, (C5_kfold_partition_and_degradation 5).1 (by decide)⟩,
   ⟨by decide, (C5_kfold_partition_and_degradation 2).2 (by decide)⟩⟩

/-! ## Properties of the recognizer -/

/-- C6: the `probabilities` and `guesses` lists returned by `recognize`
each have length equal to the number of test items, and the i-th entry of
each is exactly the i-th test item's score distribution and best guess. -/
theorem C6_recognize_lengths_and_order (inp : RecInput) :
    (recognize inp).1.length = inp.numItems ∧
    (recognize inp).2.length = inp.numItems ∧
    (∀ i, i < inp.numItems →
      (recognize inp).1[i]? = some (recognizeItem (inp.score i) inp.models).1 ∧
      (recognize inp).2[i]? = some (recognizeItem (inp.score i) inp.models).2) := by
  refine ⟨by simp [recognize], by simp [recognize], ?_⟩
  intro i hi
  constructor
  · simp [recognize, List.getElem?_map, List.getElem?_range, hi]
  · simp [recognize, List.getElem?_map, List.getElem?_range, hi]

/-- Witness for C6 at `recEx`, item 0. -/
theorem C6_witness :
    0 < recEx.numItems ∧
    (recognize recEx).1[0]? = some (recognizeItem (recEx.score 0) recEx.models).1 ∧
    (recognize recEx).2[0]? = some (recognizeItem (recEx.score 0) recEx.models).2 :=
  ⟨by decide, (C6_recognize_lengths_and_order recEx).2.2 0 (by decide)⟩

theorem foldl_recognizeStep_filter (score : String → Option ℚ) :
    ∀ (models : List String) (st : RecState),
      models.foldl (recognizeStep score) st =
        (models.filter (fun w => (score w).isSome)).foldl (recognizeStep score) st
  | [], _ => rfl
  | x :: xs, st => by
    rcases hx : score x with _ | v
    · have hstep : recognizeStep score st x = st := by simp [recognizeStep, hx]
      rw [List.foldl_cons, hstep, List.filter_cons]
      simp only [hx, Option.isSome_none, Bool.false_eq_true, if_false]
      exact foldl_recognizeStep_filter score xs st
    · rw [List.foldl_cons, List.filter_cons]
      simp only [hx, Option.isSome_some, if_true]
      rw [List.foldl_cons]
      exact foldl_recognizeStep_filter score xs _

theorem foldl_recognizeStep_scores_mem (score : String → Option ℚ) :
    ∀ (models : List String) (st : RecState) (w : String) (v : ℚ),
      (w, v) ∈ (models.foldl (recognizeStep score) st).all_scores →
      (w, v) ∈ st.all_scores ∨ score w = some v
  | [], _, _, _, h => Or.inl h
  | x :: xs, st, w, v, h => by
    rw [List.foldl_cons] at h
    rcases foldl_recognizeStep_scores_mem score xs _ w v h with h1 | h1
    · rcases hx : score x with _ | u
      · left
        simpa [recognizeStep, hx] using h1
      · have hmem : (w, v) ∈ setdefault st.all_scores x u := by
          rcases hgt : gtBest u st.best_score with _ | _ <;>
            simpa [recognizeStep, hx, hgt] using h1
        by_cases hc : st.all_scores.any (fun p => p.1 == x)
        · rw [setdefault, if_pos hc] at hmem
          exact Or.inl hmem
        · rw [setdefault, if_neg hc] at hmem
          rcases List.mem_append.mp hmem with h2 | h2
          · exact Or.inl h2
          · simp at h2
            right
            rw [h2.1, h2.2, hx]
    · exact Or.inr h1

theorem foldl_recognizeStep_all_none (score : String → Option ℚ) :
    ∀ (models : List String) (st : RecState),
      (∀ w ∈ models, score w = none) → models.foldl (recognizeStep score) st = st
  | [], _, _ => rfl
  | x :: xs, st, h => by
    rw [List.foldl_cons]
    have hstep : recognizeStep score st x = st := by
      simp [recognizeStep, h x (by simp)]
    rw [hstep]
    exact foldl_recognizeStep_all_none score xs st (fun w hw => h w (by simp [hw]))

/-- C7: a word whose model fails to score an item is omitted from the
item's score distribution entirely and contributes nothing to the best
guess — the item's whole result equals the result over only the
successfully scoring words; and if every word fails, the distribution is
empty and the best guess is the empty label `""`. -/
theorem C7_recognize_failed_words_omitted (score : String → Option ℚ)
    (models : List String) :
    recognizeItem score models =
      recognizeItem score (models.filter (fun w => (score w).isSome)) ∧
    (∀ w, score w = none → ∀ v : ℚ, (w, v) ∉ (recognizeItem score models).1) ∧
    ((∀ w ∈ models, score w = none) → recognizeItem score models = ([], "")) := by
  refine ⟨?_, ?_, ?_⟩
  · rw [recognizeItem, recognizeItem, foldl_recognizeStep_filter score models]
  · intro w hnone v hv
    simp only [recognizeItem] at hv
    rcases foldl_recognizeStep_scores_mem score models ⟨[], none, ""⟩ w v hv with h1 | h1
    · simp at h1
    · rw [hnone] at h1
      exact absurd h1 (by simp)
  · intro h
    simp [recognizeItem, foldl_recognizeStep_all_none score models ⟨[], none, ""⟩ h]

/-- Witness for C7 with two models that both fail to score. -/
theorem C7_witness :
    ((fun _ : String => (none : Option ℚ)) "CAT" = none) ∧
    recognizeItem (fun _ : String => (none : Option ℚ)) ["CAT", "DOG"] = ([], "") :=
  ⟨rfl,
   (C7_recognize_failed_words_omitted (fun _ => none) ["CAT", "DOG"]).2.2
     (fun _ _ => rfl)⟩

/-! ## Tie-breaking -/

/-- C8: every comparing selection loop (BIC with strict `<`, DIC and CV
with strict `>`) and the recognizer's best-guess tracking use strict
inequality, so a later candidate or word whose score exactly equals the
current best leaves the winner unchanged — the first to achieve a boundary
score is kept.  (`SelectorConstant` evaluates a single candidate and
performs no comparison at all.) -/
theorem C8_ties_keep_first_candidate :
    (∀ (score : Nat → Option ℚ) (st : Option ℚ × Option Nat) (n : Nat) (v : ℚ),
      score n = some v → st.1 = some v →
      bestStep score (fun a b => decide (a < b)) st n = st ∧
      bestStep score (fun a b => decide (a > b)) st n = st) ∧
    (∀ (inp : CVInput) (st : Option ℚ × Option Nat) (n : Nat),
      st.1 = some (cvAvg inp n) → SelectorCV.step inp st n = st) ∧
    (∀ (score : String → Option ℚ) (st : RecState) (w : String) (v : ℚ),
      score w = some v → st.best_score = some v →
      (recognizeStep score st w).best_score = st.best_score ∧
      (recognizeStep score st w).best_word = st.best_word) := by
  refine ⟨?_, ?_, ?_⟩
  · intro score st n v hs h1
    constructor <;> simp [bestStep, hs, h1]
  · intro inp st n h1
    simp [SelectorCV.step, h1, gtBest]
  · intro score st w v hs h1
    constructor <;> simp [recognizeStep, hs, h1, gtBest]

/-- Witness for C8: a tied BIC/DIC candidate, a tied CV candidate and a
tied recognizer word each leave the incumbent in place. -/
theorem C8_witness :
    (bestStep (fun _ => some (-5 : ℚ)) (fun a b => decide (a < b)) (some (-5), some 2) 3 =
        (some (-5), some 2) ∧
      bestStep (fun _ => some (-5 : ℚ)) (fun a b => decide (a > b)) (some (-5), some 2) 3 =
        (some (-5), some 2)) ∧
    SelectorCV.step cvExGood (some (cvAvg cvExGood 3), some 2) 3 =
      (some (cvAvg cvExGood 3), some 2) ∧
    ((recognizeStep (fun _ => some (-5 : ℚ)) ⟨[("CAT", -5)], some (-5), "CAT"⟩
        "DOG").best_score = some (-5) ∧
      (recognizeStep (fun _ => some (-5 : ℚ)) ⟨[("CAT", -5)], some (-5), "CAT"⟩
        "DOG").best_word = "CAT") :=
  ⟨C8_ties_keep_first_candidate.1 (fun _ => some (-5)) (some (-5), some 2) 3 (-5) rfl rfl,
   C8_ties_keep_first_candidate.2.1 cvExGood (some (cvAvg cvExGood 3), some 2) 3 rfl,
   C8_ties_keep_first_candidate.2.2 (fun _ => some (-5)) ⟨[("CAT", -5)], some (-5), "CAT"⟩
     "DOG" (-5) rfl rfl⟩
